import Mathlib

/-!
Verification of the session codec of scyth/go-webproject
(`mod_sessions` in the repository, plus the filesystem-backed session
store in `src/modules/sessions/filestore.go`).

The Go code is shallowly embedded: Go byte strings become `List Nat`
(each element a byte value `< 256`), Go's `map[string]interface{}`
session data becomes an association list over a `Value` inductive,
fallible operations return `Except Err` or `Option`, and the sources of
randomness and of wall-clock time (`rand.Read`, `Encoder.TimeFunc`)
become explicit parameters / fields.  Machine integers (`int64`,
timestamps, age bounds) are modelled as `Int`; the quantities involved
are far below the overflow range.
-/

namespace GWP

/-- Go byte strings (`[]byte` / `string`): lists of byte values. -/
abbrev Bytes := List Nat

/-- Convert a Lean string literal of ASCII characters to `Bytes`. -/
def str (s : String) : Bytes := s.data.map Char.toNat

/-- The error taxonomy of the session subsystem.  Each constructor is one
of the `errors.New` values declared in `mod_sessions` / `filestore.go`;
`corruptInput` stands for the `base64.CorruptInputError` that
`base64.URLEncoding.Decode` returns and `Encoder.Decode` passes through;
`typeAssertPanic` stands for a failed Go type assertion (a run-time
panic in the source). -/
inductive Err where
  | encoding | decoding | authentication | decryption
  | maxLength | badTimestamp | newTimestamp | oldTimestamp
  | missingHash | missingHashKey
  | noSession | noFlashes | noStore | storeMismatch | badIdLength
  | noInit | corruptInput | typeAssertPanic
deriving DecidableEq, Repr

/-- Session values (`interface{}` contents a session can hold): signed
integers, booleans, (byte) strings and nested sequences. -/
inductive Value where
  | vInt (i : Int)
  | vBool (b : Bool)
  | vStr (s : Bytes)
  | vList (l : List Value)
deriving Repr

mutual

def Value.decEq : (a b : Value) → Decidable (a = b)
  | .vInt a, .vInt b =>
      if h : a = b then isTrue (by rw [h]) else isFalse (by intro he; injection he; contradiction)
  | .vBool a, .vBool b =>
      if h : a = b then isTrue (by rw [h]) else isFalse (by intro he; injection he; contradiction)
  | .vStr a, .vStr b =>
      if h : a = b then isTrue (by rw [h]) else isFalse (by intro he; injection he; contradiction)
  | .vList a, .vList b =>
      match Value.decEqList a b with
      | isTrue h => isTrue (by rw [h])
      | isFalse h => isFalse (by intro he; injection he; contradiction)
  | .vInt _, .vBool _ => isFalse nofun
  | .vInt _, .vStr _ => isFalse nofun
  | .vInt _, .vList _ => isFalse nofun
  | .vBool _, .vInt _ => isFalse nofun
  | .vBool _, .vStr _ => isFalse nofun
  | .vBool _, .vList _ => isFalse nofun
  | .vStr _, .vInt _ => isFalse nofun
  | .vStr _, .vBool _ => isFalse nofun
  | .vStr _, .vList _ => isFalse nofun
  | .vList _, .vInt _ => isFalse nofun
  | .vList _, .vBool _ => isFalse nofun
  | .vList _, .vStr _ => isFalse nofun

def Value.decEqList : (a b : List Value) → Decidable (a = b)
  | [], [] => isTrue rfl
  | a :: as, b :: bs =>
      match Value.decEq a b, Value.decEqList as bs with
      | isTrue h1, isTrue h2 => isTrue (by rw [h1, h2])
      | isFalse h, _ => isFalse (by intro he; injection he; contradiction)
      | _, isFalse h => isFalse (by intro he; injection he; contradiction)
  | [], _ :: _ => isFalse nofun
  | _ :: _, [] => isFalse nofun

end

instance : DecidableEq Value := Value.decEq

deriving instance DecidableEq for Except

/-- `SessionData`: Go's `map[string]interface{}`, modelled as an
association list from byte-string keys to values. -/
abbrev SessionData := List (Bytes × Value)

/-- Map lookup (`v, ok := m[k]`): first binding of the key. -/
def sdGet (d : SessionData) (k : Bytes) : Option Value :=
  match d with
  | [] => none
  | (k', v) :: rest => if k' = k then some v else sdGet rest k

/-- Map update (`m[k] = v`): replace the binding if present, else append. -/
def sdSet (d : SessionData) (k : Bytes) (v : Value) : SessionData :=
  match d with
  | [] => [(k, v)]
  | (k', v') :: rest =>
      if k' = k then (k', v) :: rest else (k', v') :: sdSet rest k v

/-- Map deletion (`delete(m, k)`). -/
def sdDel (d : SessionData) (k : Bytes) : SessionData :=
  d.filter (fun e => decide (e.1 ≠ k))

/-! ## Decimal rendering and parsing of timestamps

`fmt.Sprintf("%d", ts)` and `strconv.ParseInt(s, 10, 64)` (whose error
the source discards, leaving `0` on malformed input). -/

/-- Little-endian decimal ASCII digits; the fuel makes the recursion
structural and is always instantiated with `n` itself. -/
def natDigitsAux : Nat → Nat → Bytes
  | _, 0 => []
  | 0, _ + 1 => []
  | fuel + 1, n + 1 => (48 + (n + 1) % 10) :: natDigitsAux fuel ((n + 1) / 10)

/-- Decimal ASCII digits of a natural number, as produced by `%d`. -/
def natDigits (n : Nat) : Bytes :=
  if n = 0 then [48] else (natDigitsAux n n).reverse

/-- Decimal ASCII rendering of an `int64`, as produced by `%d`. -/
def intDigits (i : Int) : Bytes :=
  if i < 0 then 45 :: natDigits i.natAbs else natDigits i.toNat

/-- Is a byte an ASCII decimal digit? -/
def isDigit (b : Nat) : Bool := 48 ≤ b && b ≤ 57

/-- Parse an unsigned run of decimal digits; `none` if empty or any
byte is not a digit. -/
def parseDigits (bs : Bytes) : Option Nat :=
  if bs ≠ [] ∧ bs.all isDigit then
    some (bs.foldl (fun a c => a * 10 + (c - 48)) 0)
  else none

/-- `strconv.ParseInt(s, 10, 64)` with its error discarded: the parsed
value on well-formed input, `0` otherwise (as in `verifyHmac`). -/
def parseInt (bs : Bytes) : Int :=
  match bs with
  | [] => 0
  | b :: rest =>
      if b = 45 then
        match parseDigits rest with
        | some n => -(n : Int)
        | none => 0
      else
        match parseDigits (b :: rest) with
        | some n => (n : Int)
        | none => 0


/-! ## Serialization

Modelled from the spec: the serializer is the stdlib `encoding/gob`
codec, an external collaborator of the session subsystem ("a byte-level
structured serializer (generic binary codec)" per §6, round-tripping
"signed integers, booleans, strings, ... and nested sequences").  It is
modelled as a length-prefixed binary encoding over `Value`; as in gob,
the bytes of string contents appear verbatim in the output. -/

/-- Little-endian base-128 varint chunks; the fuel makes the recursion
structural and is always instantiated with `n` itself. -/
def encNatAux : Nat → Nat → Bytes
  | 0, n => [n]
  | fuel + 1, n => if n < 128 then [n] else (128 + n % 128) :: encNatAux fuel (n / 128)

/-- Little-endian base-128 varint encoding of a natural number. -/
def encNat (n : Nat) : Bytes := encNatAux n n

/-- Sign byte followed by the varint magnitude. -/
def encInt (i : Int) : Bytes :=
  if i < 0 then 1 :: encNat i.natAbs else 0 :: encNat i.toNat

mutual

/-- Serialize one `Value` (tag byte, then payload). -/
def encValue : Value → Bytes
  | .vInt i => 0 :: encInt i
  | .vBool b => [1, if b then 1 else 0]
  | .vStr s => 2 :: (encNat s.length ++ s)
  | .vList l => 3 :: (encNat l.length ++ encValueList l)

/-- Serialize a sequence of values back to back. -/
def encValueList : List Value → Bytes
  | [] => []
  | v :: vs => encValue v ++ encValueList vs

end

/-- Serialize the entries of a session map back to back. -/
def encEntries : SessionData → Bytes
  | [] => []
  | (k, v) :: rest => encNat k.length ++ k ++ encValue v ++ encEntries rest

/-- `serialize` (gob-encodes a session value): entry count, then entries. -/
def serialize (d : SessionData) : Bytes := encNat d.length ++ encEntries d

/-- Read back a varint; returns the value and the remaining bytes. -/
def decNat : Bytes → Option (Nat × Bytes)
  | [] => none
  | b :: rest =>
      if b < 128 then some (b, rest)
      else
        match decNat rest with
        | some (m, r) => some ((b - 128) + 128 * m, r)
        | none => none

/-- Read back a signed integer. -/
def decInt : Bytes → Option (Int × Bytes)
  | [] => none
  | s :: rest =>
      match decNat rest with
      | some (m, r) => some (if s = 1 then -(m : Int) else (m : Int), r)
      | none => none

/-- Read `n` raw bytes. -/
def readBytes (n : Nat) (bs : Bytes) : Option (Bytes × Bytes) :=
  if n ≤ bs.length then some (bs.take n, bs.drop n) else none

mutual

/-- Parse one `Value`; the fuel (spent on every step) makes the
recursion structural. -/
def decValue : Nat → Bytes → Option (Value × Bytes)
  | 0, _ => none
  | _ + 1, [] => none
  | fuel + 1, t :: rest =>
      if t = 0 then
        match decInt rest with
        | some (i, r) => some (.vInt i, r)
        | none => none
      else if t = 1 then
        match rest with
        | b :: r => some (.vBool (b = 1), r)
        | [] => none
      else if t = 2 then
        match decNat rest with
        | some (n, r) =>
            match readBytes n r with
            | some (s, r2) => some (.vStr s, r2)
            | none => none
        | none => none
      else if t = 3 then
        match decNat rest with
        | some (n, r) =>
            match decValues fuel n r with
            | some (l, r2) => some (.vList l, r2)
            | none => none
        | none => none
      else none

/-- Parse `n` consecutive values. -/
def decValues : Nat → Nat → Bytes → Option (List Value × Bytes)
  | 0, _, _ => none
  | _ + 1, 0, bs => some ([], bs)
  | fuel + 1, n + 1, bs =>
      match decValue fuel bs with
      | some (v, r) =>
          match decValues fuel n r with
          | some (l, r2) => some (v :: l, r2)
          | none => none
      | none => none

end

/-- Parse `n` consecutive map entries. -/
def decEntries (fuel : Nat) : Nat → Bytes → Option (SessionData × Bytes)
  | 0, bs => some ([], bs)
  | n + 1, bs =>
      match decNat bs with
      | some (klen, r) =>
          match readBytes klen r with
          | some (k, r2) =>
              match decValue fuel r2 with
              | some (v, r3) =>
                  match decEntries fuel n r3 with
                  | some (d, r4) => some ((k, v) :: d, r4)
                  | none => none
              | none => none
          | none => none
      | none => none

/-- `deserialize` (gob-decodes a session value); `none` on malformed
input (the gob decoder's error). -/
def deserialize (bs : Bytes) : Option SessionData :=
  match decNat bs with
  | some (n, r) =>
      match decEntries (bs.length + 1) n r with
      | some (d, _) => some d
      | none => none
  | none => none

/-! ## Transport encoding

`encode`/`decode` wrap `base64.URLEncoding` (URL-safe alphabet, `=`
padding; the decoder, as Go's default non-strict decoder, ignores
unused trailing bits of the final quantum).  `decode`'s `none` stands
for the `base64.CorruptInputError` the stdlib returns. -/

/-- The URL-safe base64 alphabet. -/
def b64Char (n : Nat) : Nat :=
  if n < 26 then 65 + n
  else if n < 52 then 97 + (n - 26)
  else if n < 62 then 48 + (n - 52)
  else if n = 62 then 45
  else 95

/-- Inverse of the alphabet; `none` for bytes outside it (including `=`). -/
def b64Val (c : Nat) : Option Nat :=
  if 65 ≤ c ∧ c ≤ 90 then some (c - 65)
  else if 97 ≤ c ∧ c ≤ 122 then some (c - 97 + 26)
  else if 48 ≤ c ∧ c ≤ 57 then some (c - 48 + 52)
  else if c = 45 then some 62
  else if c = 95 then some 63
  else none

/-- `encode`: base64-encode a value for cookie transmission. -/
def encode : Bytes → Bytes
  | [] => []
  | [a] => [b64Char (a / 4), b64Char (a % 4 * 16), 61, 61]
  | [a, b] => [b64Char (a / 4), b64Char (a % 4 * 16 + b / 16), b64Char (b % 16 * 4), 61]
  | a :: b :: c :: rest =>
      b64Char (a / 4) :: b64Char (a % 4 * 16 + b / 16)
        :: b64Char (b % 16 * 4 + c / 64) :: b64Char (c % 64) :: encode rest

/-- `decode`: base64-decode a cookie value. -/
def decode : Bytes → Option Bytes
  | [] => some []
  | c1 :: c2 :: c3 :: c4 :: rest =>
      match b64Val c1, b64Val c2 with
      | some v1, some v2 =>
          if c3 = 61 then
            if c4 = 61 ∧ rest = [] then some [v1 * 4 + v2 / 16] else none
          else
            match b64Val c3 with
            | some v3 =>
                if c4 = 61 then
                  if rest = [] then some [v1 * 4 + v2 / 16, v2 % 16 * 16 + v3 / 4]
                  else none
                else
                  match b64Val c4 with
                  | some v4 =>
                      match decode rest with
                      | some tl =>
                          some ((v1 * 4 + v2 / 16) :: (v2 % 16 * 16 + v3 / 4)
                            :: (v3 % 4 * 64 + v4) :: tl)
                      | none => none
                  | none => none
            | none => none
      | _, _ => none
  | _ => none

/-! ## Authentication (`mac`, `createHmac`, `verifyHmac`) -/

/-- `bytes.SplitN(value, []byte("|"), 3)`: split at the first separator. -/
def splitFirst : Bytes → Option (Bytes × Bytes)
  | [] => none
  | b :: rest =>
      if b = 124 then some ([], rest)
      else
        match splitFirst rest with
        | some (a, r) => some (b :: a, r)
        | none => none

/-- `bytes.SplitN(value, []byte("|"), 3)`: at most three parts, the last
keeping any further separators. -/
def split3 (bs : Bytes) : List Bytes :=
  match splitFirst bs with
  | none => [bs]
  | some (a, r1) =>
      match splitFirst r1 with
      | none => [a, r1]
      | some (b, r2) => [a, b, r2]

/-- The bytes the HMAC is computed over: `"<key>|<value>|<timestamp>"`. -/
def macMessage (key value : Bytes) (timestamp : Int) : Bytes :=
  key ++ 124 :: (value ++ 124 :: intDigits timestamp)

/-- `mac`: the hash is written over `macMessage`, and `h.Sum(b)` APPENDS
the digest to `b`, which in the source is again the formatted message —
so the MAC value is `"<key>|<value>|<timestamp>"` followed by the
digest. -/
def mac (H : Bytes → Bytes) (key value : Bytes) (timestamp : Int) : Bytes :=
  macMessage key value timestamp ++ H (macMessage key value timestamp)

/-- `createHmac`: returns `"<value>|<timestamp>|<mac>"`. -/
def createHmac (H : Bytes → Bytes) (key value : Bytes) (timestamp : Int) : Bytes :=
  value ++ 124 :: (intDigits timestamp ++ 124 :: mac H key value timestamp)

/-- `verifyHmac`: split into three parts, parse and police the
timestamp, then compare the MAC (the source's length check plus
`subtle.ConstantTimeCompare` amount to byte-sequence equality). -/
def verifyHmac (H : Bytes → Bytes) (key value : Bytes)
    (timestamp minAge maxAge : Int) : Except Err Bytes :=
  match split3 value with
  | [rv, tsb, msg] =>
      let tst := parseInt tsb
      if tst = 0 then .error .badTimestamp
      else if minAge ≠ 0 ∧ tst > timestamp - minAge then .error .newTimestamp
      else if maxAge ≠ 0 ∧ tst < timestamp - maxAge then .error .oldTimestamp
      else if msg = mac H key rv tst then .ok rv
      else .error .authentication
  | _ => .error .authentication

/-! ## Encryption (`encrypt`, `decrypt`) -/

/-- A `cipher.Block` as used in CTR mode: `keystream iv i` is the `i`-th
byte of the CTR keystream under initialization vector `iv`. -/
structure Block where
  size : Nat
  keystream : Bytes → Nat → Nat

/-- XOR a value against a keystream (`cipher.NewCTR` + `XORKeyStream`). -/
def xorStream (ks : Nat → Nat) (v : Bytes) : Bytes :=
  List.zipWith (fun i b => Nat.xor (ks i) b) (List.range v.length) v

/-- `encrypt`: prepend a random salt to the value, encrypt in CTR mode,
prepend the IV.  The source draws `iv` and `salt` from `crypto/rand`;
the model takes them as parameters. -/
def encrypt (blk : Block) (iv salt value : Bytes) : Bytes :=
  iv ++ xorStream (blk.keystream iv) (salt ++ value)

/-- `decrypt`: strip the IV, decrypt, strip the salt; fails with
`Decryption` unless strictly more than `size` bytes remain at each
step. -/
def decrypt (blk : Block) (value : Bytes) : Except Err Bytes :=
  if blk.size < value.length then
    let iv := value.take blk.size
    let rest := value.drop blk.size
    let plain := xorStream (blk.keystream iv) rest
    if blk.size < plain.length then .ok (plain.drop blk.size)
    else .error .decryption
  else .error .decryption

/-! ## The Encoder -/

/-- `Encoder`: MAC primitive (required), optional block cipher, validity
bounds.  `hash` is the digest function of the configured `hash.Hash`
(`none` models a nil `Hash` field).  `timeFunc` is the injected clock:
the source's `timestamp()` returns `TimeFunc()` when set and the wall
clock otherwise; the model represents whichever applies by this field's
value. -/
structure Encoder where
  hash : Option (Bytes → Bytes)
  block : Option Block := none
  minAge : Int := 0
  maxAge : Int := 0
  maxLength : Nat := 0
  timeFunc : Int

/-- `Encoder.timestamp`: the current timestamp, in seconds. -/
def Encoder.timestamp (e : Encoder) : Int := e.timeFunc

/-- `Encoder.Encode`: serialize, optionally encrypt-then-base64 (the
source comments "Encode because pipes would break HMAC verification"),
authenticate, base64. -/
def Encoder.Encode (e : Encoder) (iv salt : Bytes) (key : Bytes)
    (value : SessionData) : Except Err Bytes :=
  match e.hash with
  | none => .error .missingHash
  | some H =>
      let b1 := serialize value
      let b2 :=
        match e.block with
        | none => b1
        | some blk => encode (encrypt blk iv salt b1)
      .ok (encode (createHmac H key b2 e.timestamp))

/-- Steps 3 and 4 of `Encoder.Decode` on the authenticated payload:
optionally base64-decode and decrypt, then deserialize. -/
def Encoder.decodePayload (e : Encoder) (rv2 : Bytes) : Except Err SessionData :=
  match e.block with
  | none =>
      match deserialize rv2 with
      | some d => .ok d
      | none => .error .decoding
  | some blk =>
      match decode rv2 with
      | none => .error .corruptInput
      | some rv3 =>
          match decrypt blk rv3 with
          | .error er => .error er
          | .ok rv4 =>
              match deserialize rv4 with
              | some d => .ok d
              | none => .error .decoding

/-- `Encoder.Decode`: length check, base64-decode, verify the MAC and
timestamp, optionally base64-decode and decrypt the payload,
deserialize. -/
def Encoder.Decode (e : Encoder) (key value : Bytes) : Except Err SessionData :=
  match e.hash with
  | none => .error .missingHash
  | some H =>
      if e.maxLength ≠ 0 ∧ e.maxLength < value.length then .error .maxLength
      else
        match decode value with
        | none => .error .corruptInput
        | some rv =>
            match verifyHmac H key rv e.timestamp e.minAge e.maxAge with
            | .error er => .error er
            | .ok rv2 => e.decodePayload rv2

/-! ## Store-level Encode / Decode (key rotation) -/

/-- Store-level `Encode`: try the registered encoders in order, return
the first success; `ErrEncoding` if none (or none are registered). -/
def storeEncode (encoders : List Encoder) (iv salt key : Bytes)
    (value : SessionData) : Except Err Bytes :=
  match encoders with
  | [] => .error .encoding
  | e :: rest =>
      match e.Encode iv salt key value with
      | .ok v => .ok v
      | .error _ => storeEncode rest iv salt key value

/-- Store-level `Decode`: try the registered encoders in order, return
the first success; `ErrDecoding` if none (or none are registered). -/
def storeDecode (encoders : List Encoder) (key value : Bytes) :
    Except Err SessionData :=
  match encoders with
  | [] => .error .decoding
  | e :: rest =>
      match e.Decode key value with
      | .ok d => .ok d
      | .error _ => storeDecode rest key value

/-! ## Factory and per-request registry

`SessionFactory`, `requestSessions` and the convenience flash-message
API.  A Go session map is shared by reference between the registry and
the caller, so the model keeps live maps in a heap (`RState.heap`) and
hands out references; `heapSet` models an in-place mutation through
such a reference.  Stores are Go interface values compared by identity
(`store != info.Store`), modelled by a numeric `id`. -/

/-- Cookie attributes of a session (`SessionConfig`). -/
structure SessionConfig where
  path : String
  domain : String
  maxAge : Int
  secure : Bool
  httpOnly : Bool
deriving DecidableEq, Repr

def DefaultSessionKey : String := "s"

def DefaultStoreKey : String := "cookie"

def DefaultFlashesKey : String := "_flash"

/-- `DefaultSessionConfig`: the configuration used when none is set. -/
def DefaultSessionConfig : SessionConfig :=
  { path := "/", domain := "", maxAge := 86400 * 30,
    secure := false, httpOnly := false }

/-- A `SessionStore` as seen by the registry: its identity (Go compares
interface values by identity) and the `SessionData` its `Load` produces
for the current request (for the cookie store: the decoded cookie, or
an empty map when the cookie is missing or invalid). -/
structure StoreM where
  id : Nat
  loadData : SessionData

/-- `SessionFactory`: registered stores and the default config. -/
structure Factory where
  stores : List (String × StoreM)
  defaultConfig : SessionConfig

/-- Lookup in a string-keyed association list (a Go map). -/
def lookupKey {α : Type} : List (String × α) → String → Option α
  | [], _ => none
  | (k, v) :: rest, key => if k = key then some v else lookupKey rest key

/-- `SessionFactory.Store`: resolve a store; `ErrNoStore` if absent. -/
def Factory.Store (f : Factory) (key : String) : Except Err StoreM :=
  match lookupKey f.stores key with
  | some s => .ok s
  | none => .error .noStore

/-- `SessionFactory.defaultConfigValue`: a field-by-field copy of the
default configuration. -/
def Factory.defaultConfigValue (f : Factory) : SessionConfig :=
  { path := f.defaultConfig.path
    domain := f.defaultConfig.domain
    maxAge := f.defaultConfig.maxAge
    secure := f.defaultConfig.secure
    httpOnly := f.defaultConfig.httpOnly }

/-- `SessionInfo`: the session map (a heap reference), the store that
produced it, and the resolved config. -/
structure InfoM where
  dataRef : Nat
  storeId : Nat
  config : SessionConfig

/-- `requestSessions` and its surroundings: the process factory, the
heap of live session maps, the per-request cache, and a counter of
`store.Load` calls performed so far. -/
structure RState where
  factory : Factory
  heap : List SessionData
  sessions : List (String × InfoM)
  loads : Nat

/-- Read a session map through its reference. -/
def heapGet (st : RState) (ref : Nat) : SessionData := st.heap.getD ref []

/-- Mutate a session map in place through its reference. -/
def heapSet (st : RState) (ref : Nat) (d : SessionData) : RState :=
  { st with heap := st.heap.set ref d }

/-- `sessionKeys`: extract session/store keys from variadic arguments. -/
def sessionKeys (vars : List String) : String × String :=
  let sessionKey :=
    if 0 < vars.length ∧ vars.getD 0 "" ≠ "" then vars.getD 0 ""
    else DefaultSessionKey
  let storeKey :=
    if 1 < vars.length ∧ vars.getD 1 "" ≠ "" then vars.getD 1 ""
    else DefaultStoreKey
  (sessionKey, storeKey)

/-- `flashKey`: extract a flashes key from variadic arguments. -/
def flashKey (vars : List String) : String × List String :=
  match vars with
  | [] => (DefaultFlashesKey, [])
  | v0 :: rest => (if v0 ≠ "" then v0 else DefaultFlashesKey, rest)

/-- `requestSessions.Session`: resolve the store; on a cache hit, fail
with `StoreMismatch` if the cached store differs, else return the
cached map unchanged; on a miss, build a `SessionInfo` with a snapshot
of the default config, `Load` a fresh map and cache it. -/
def RState.Session (st : RState) (vars : List String) :
    Except Err (Nat × RState) :=
  let ks := sessionKeys vars
  match st.factory.Store ks.2 with
  | .error e => .error e
  | .ok store =>
      match lookupKey st.sessions ks.1 with
      | some info =>
          if info.storeId ≠ store.id then .error .storeMismatch
          else .ok (info.dataRef, st)
      | none =>
          let ref := st.heap.length
          let info : InfoM :=
            { dataRef := ref, storeId := store.id,
              config := st.factory.defaultConfigValue }
          .ok (ref,
            { st with
              heap := st.heap ++ [store.loadData]
              sessions := st.sessions ++ [(ks.1, info)]
              loads := st.loads + 1 })

/-- `SessionFactory.Flashes`: fetch the session, drop the flashes key
and return its sequence; `ErrNoFlashes` if absent.  (A non-sequence
value under the key is a type-assertion panic in the source.) -/
def RState.Flashes (st : RState) (vars : List String) :
    Except Err (List Value × RState) :=
  let fk := flashKey vars
  match st.Session fk.2 with
  | .error e => .error e
  | .ok (ref, st') =>
      let session := heapGet st' ref
      match sdGet session (str fk.1) with
      | some (.vList l) => .ok (l, heapSet st' ref (sdDel session (str fk.1)))
      | some _ => .error .typeAssertPanic
      | none => .error .noFlashes

/-- `SessionFactory.AddFlash`: fetch the session and append the value
to the sequence under the flashes key (starting one if absent). -/
def RState.AddFlash (st : RState) (v : Value) (vars : List String) :
    Except Err (Bool × RState) :=
  let fk := flashKey vars
  match st.Session fk.2 with
  | .error e => .error e
  | .ok (ref, st') =>
      let session := heapGet st' ref
      match sdGet session (str fk.1) with
      | some (.vList l) =>
          .ok (true, heapSet st' ref (sdSet session (str fk.1) (.vList (l ++ [v]))))
      | some _ => .error .typeAssertPanic
      | none =>
          .ok (true, heapSet st' ref (sdSet session (str fk.1) (.vList [v])))

/-- A caller overwriting the `Config` of a cached `SessionInfo` (the
session configuration may be overridden before save). -/
def RState.setSessionConfig (st : RState) (sessionKey : String)
    (cfg : SessionConfig) : RState :=
  { st with
    sessions := st.sessions.map
      (fun kv => if kv.1 = sessionKey then (kv.1, { kv.2 with config := cfg }) else kv) }

/-! ## The filesystem-backed store (`filestore.go`) -/

/-- The reserved session-id key `"__sessionid__"`. -/
def sessionIdKey : Bytes := str "__sessionid__"

/-- The blob path prefix `"/tmp/sess_gwp"`. -/
def sessPathBase : Bytes := str "/tmp/sess_gwp"

/-- The server-side blob records: path to fully-readable contents.  An
absent entry models both a missing record and one whose open fails
(unreadable). -/
abbrev FileSys := List (Bytes × Bytes)

/-- Filesystem lookup by path. -/
def lookupFile : FileSys → Bytes → Option Bytes
  | [], _ => none
  | (p, c) :: rest, path => if p = path then some c else lookupFile rest path

/-- `FileStoreDecode`: try each encoder on the cookie value; on the
first success, fail with the "not initialized" error if the reserved
id key is absent; otherwise read the server-side record at
`/tmp/sess_gwp<id>`: if present and decodable its contents win, if
present but undecodable fail with `ErrDecoding`, and if absent fall
back to the cookie contents.  (`GetId`'s type assertion panics in Go on
a non-string id.) -/
def FileStoreDecode (encoders : List Encoder) (key value : Bytes)
    (fs : FileSys) : Except Err SessionData :=
  match encoders with
  | [] => .error .decoding
  | e :: rest =>
      match e.Decode key value with
      | .error _ => FileStoreDecode rest key value fs
      | .ok decoded =>
          match sdGet decoded sessionIdKey with
          | none => .error .noInit
          | some (.vStr idb) =>
              match lookupFile fs (sessPathBase ++ idb) with
              | none => .ok decoded
              | some fdata =>
                  match e.Decode key fdata with
                  | .ok fdecoded => .ok fdecoded
                  | .error _ => .error .decoding
          | some _ => .error .typeAssertPanic

/-! ## Concrete fixtures used by witnesses and counterexamples

Concrete instantiations of the abstract collaborators: `hash.Hash`
digest functions of fixed output length, and a CTR block cipher. -/

/-- A concrete digest function (fixed 1-byte output). -/
def hashA : Bytes → Bytes :=
  fun m => [m.foldl (fun a b => (a * 31 + b) % 251) 7]

/-- A second, different concrete digest function. -/
def hashB : Bytes → Bytes :=
  fun m => [m.foldl (fun a b => (a * 37 + b) % 241) 11]

/-- A concrete 4-byte block cipher keystream. -/
def blockA : Block :=
  { size := 4, keystream := fun iv i => (iv.headD 0 + 3 * i) % 256 }

/-- A hash-only encoder with an injected clock. -/
def encA : Encoder := { hash := some hashA, timeFunc := 11 }

/-- A hash-only encoder over a different secret (`hashB`). -/
def encB : Encoder := { hash := some hashB, timeFunc := 11 }

/-- An encoder with a block cipher configured. -/
def encC : Encoder := { hash := some hashA, block := some blockA, timeFunc := 11 }

/-- A decoding encoder with `MinAge = 120`, `MaxAge = 60` and clock
1000. -/
def encFresh : Encoder :=
  { hash := some hashA, minAge := 120, maxAge := 60, timeFunc := 1000 }

/-- A decoding encoder with `MaxAge = 60` and clock 1000. -/
def encMax60 : Encoder := { hash := some hashA, maxAge := 60, timeFunc := 1000 }

/-- A concrete key and session payloads. -/
def keyA : Bytes := str "k"

def keyB : Bytes := str "other-key"

def dataA : SessionData :=
  [(str "a", .vStr (str "hello")), (str "n", .vInt 42)]

/-- A session value whose gob serialization contains the pipe byte
`0x7c`. -/
def dataPipe : SessionData := [(str "x", .vStr [124])]

/-- A session map carrying only the reserved id `"ab"`. -/
def dataId : SessionData := [(sessionIdKey, .vStr (str "ab"))]

/-- The full server-side session contents behind id `"ab"`. -/
def dataFull : SessionData :=
  [(sessionIdKey, .vStr (str "ab")), (str "u", .vStr (str "joe"))]

/-- The cookie value encoding `dataId` under `encA`/`keyA`. -/
def vIdCookie : Bytes := encode (createHmac hashA keyA (serialize dataId) 11)

/-- The blob contents encoding `dataFull` under `encA`/`keyA`. -/
def vFullBlob : Bytes := encode (createHmac hashA keyA (serialize dataFull) 11)

/-- A filesystem holding the record for id `"ab"`. -/
def fsA : FileSys := [(sessPathBase ++ str "ab", vFullBlob)]

/-- A registry fixture: two registered stores, empty request state. -/
def storeCookie : StoreM := { id := 1, loadData := [] }

def storeFile : StoreM := { id := 2, loadData := [] }

def stateA : RState :=
  { factory :=
      { stores := [("cookie", storeCookie), ("file", storeFile)]
        defaultConfig := DefaultSessionConfig }
    heap := []
    sessions := []
    loads := 0 }


/-- The empty session map. -/
def dataEmpty : SessionData := []

/-- An honestly encoded empty session (under `encA`, clock 11). -/
def vEmptyA : Bytes := encode (createHmac hashA keyA (serialize dataEmpty) 11)

/-- `vEmptyA` with the byte at index 3 flipped to 65. -/
def vFlipped : Bytes := vEmptyA.set 3 65

/-- Encodings of the empty session at clocks 910, 939 and 941. -/
def vTs910 : Bytes := encode (createHmac hashA keyA (serialize dataEmpty) 910)

def vTs939 : Bytes := encode (createHmac hashA keyA (serialize dataEmpty) 939)

def vTs941 : Bytes := encode (createHmac hashA keyA (serialize dataEmpty) 941)

/-- `dataA` encoded under the older secret `hashB` with key `keyA`. -/
def vOldB : Bytes := encode (createHmac hashB keyA (serialize dataA) 11)

/-- The honest encoding of `dataA` under `encA`/`keyA` (56 base64
chars, final quantum `"ZQ=="`). -/
def vDataA : Bytes := encode (createHmac hashA keyA (serialize dataA) 11)

/-- `vDataA` with the byte at index 53 flipped from 81 (`Q`) to 82
(`R`): the change touches only the unused trailing bits of the final
base64 quantum, so the non-strict decoder reads the same bytes. -/
def vFlipOk : Bytes := vDataA.set 53 82

/-- An encoder enforcing `MaxLength = 4`. -/
def encLen4 : Encoder := { hash := some hashA, maxLength := 4, timeFunc := 11 }

/-! # Theorems

Helper lemmas about the embedded definitions, then one theorem (with
witness / counterexample where applicable) per specification claim. -/

theorem sdGet_sdSet (d : SessionData) (k : Bytes) (v : Value) :
    sdGet (sdSet d k v) k = some v := by
  induction d with
  | nil => simp [sdSet, sdGet]
  | cons e rest ih =>
      obtain ⟨k', v'⟩ := e
      by_cases h : k' = k <;> simp [sdSet, sdGet, h, ih]

theorem sdGet_sdDel (d : SessionData) (k : Bytes) :
    sdGet (sdDel d k) k = none := by
  induction d with
  | nil => simp [sdDel, sdGet]
  | cons e rest ih =>
      obtain ⟨k', v'⟩ := e
      by_cases h : k' = k
      · simpa [sdDel, sdGet, h] using ih
      · simpa [sdDel, sdGet, h] using ih

theorem natDigitsAux_eq (fuel n : Nat) (h : n ≤ fuel) :
    natDigitsAux fuel n = (Nat.digits 10 n).map (· + 48) := by
  induction fuel generalizing n with
  | zero =>
      interval_cases n
      simp [natDigitsAux]
  | succ fuel ih =>
      cases n with
      | zero => simp [natDigitsAux]
      | succ m =>
          rw [natDigitsAux, Nat.digits_def' (by norm_num : (1 : ℕ) < 10) (Nat.succ_pos m)]
          rw [List.map_cons]
          congr 1
          · omega
          · exact ih _ (by
              have := Nat.div_lt_self (Nat.succ_pos m) (by norm_num : (1 : ℕ) < 10)
              omega)

theorem natDigits_eq (n : Nat) :
    natDigits n = if n = 0 then [48] else ((Nat.digits 10 n).map (· + 48)).reverse := by
  unfold natDigits
  split
  · rfl
  · rw [natDigitsAux_eq n n le_rfl]

theorem foldl_digits (l : List Nat) (a : Nat) :
    ((l.map (· + 48)).reverse).foldl (fun acc c => acc * 10 + (c - 48)) a
      = a * 10 ^ l.length + Nat.ofDigits 10 l := by
  induction l generalizing a with
  | nil => simp [Nat.ofDigits]
  | cons d t ih =>
      simp only [List.map_cons, List.reverse_cons, List.foldl_append,
        List.foldl_cons, List.foldl_nil, List.length_cons, Nat.ofDigits_cons]
      rw [ih]
      ring_nf
      omega

theorem natDigits_all_digit (n : Nat) : (natDigits n).all isDigit = true := by
  rw [natDigits_eq]
  split
  · decide
  · rw [List.all_reverse, List.all_map]
    apply List.all_eq_true.mpr
    intro d hd
    have : d < 10 := Nat.digits_lt_base (by norm_num) hd
    simp only [Function.comp, isDigit, decide_eq_true_eq, Bool.and_eq_true]
    omega

theorem natDigits_ne_nil (n : Nat) : natDigits n ≠ [] := by
  rw [natDigits_eq]
  split
  · simp
  · simp only [ne_eq, List.reverse_eq_nil_iff, List.map_eq_nil_iff]
    rename_i h
    exact Nat.digits_ne_nil_iff_ne_zero.mpr h

theorem parseDigits_natDigits (n : Nat) : parseDigits (natDigits n) = some n := by
  unfold parseDigits
  rw [if_pos ⟨natDigits_ne_nil n, natDigits_all_digit n⟩]
  rw [natDigits_eq]
  split
  · simp
    omega
  · rw [foldl_digits]
    simp [Nat.ofDigits_digits]

theorem natDigits_head_digit (n b : Nat) (t : List Nat)
    (h : natDigits n = b :: t) : isDigit b = true := by
  have hall := natDigits_all_digit n
  rw [h] at hall
  simp only [List.all_cons, Bool.and_eq_true] at hall
  exact hall.1

theorem parseInt_intDigits (i : Int) : parseInt (intDigits i) = i := by
  unfold intDigits
  by_cases h : i < 0
  · rw [if_pos h]
    simp [parseInt, parseDigits_natDigits, abs_of_neg h]
  · rw [if_neg h]
    have hne := natDigits_ne_nil i.toNat
    obtain ⟨b, t, hb⟩ : ∃ b t, natDigits i.toNat = b :: t := by
      cases hcase : natDigits i.toNat with
      | nil => exact absurd hcase hne
      | cons b t => exact ⟨b, t, rfl⟩
    have hdig : isDigit b = true := natDigits_head_digit i.toNat b t hb
    have hb45 : b ≠ 45 := by
      simp only [isDigit, Bool.and_eq_true, decide_eq_true_eq] at hdig
      omega
    rw [hb]
    simp only [parseInt, if_neg hb45]
    rw [← hb, parseDigits_natDigits]
    simp only []
    omega

theorem natDigits_no_pipe (n : Nat) : 124 ∉ natDigits n := by
  intro hmem
  have := natDigits_all_digit n
  rw [List.all_eq_true] at this
  have := this 124 hmem
  simp [isDigit] at this

theorem intDigits_no_pipe (i : Int) : 124 ∉ intDigits i := by
  unfold intDigits
  split
  · intro h
    rcases List.mem_cons.mp h with h | h
    · omega
    · exact natDigits_no_pipe _ h
  · exact natDigits_no_pipe _


theorem splitFirst_append (a r : Bytes) (ha : (124 : Nat) ∉ a) :
    splitFirst (a ++ 124 :: r) = some (a, r) := by
  induction a with
  | nil => simp [splitFirst]
  | cons b t ih =>
      have hb : b ≠ 124 := fun h => ha (h ▸ List.mem_cons_self b t)
      have ht : (124 : Nat) ∉ t := fun h => ha (List.mem_cons_of_mem b h)
      simp [splitFirst, hb, ih ht]

theorem split3_two_pipes (a b c : Bytes) (ha : (124 : Nat) ∉ a)
    (hb : (124 : Nat) ∉ b) :
    split3 (a ++ 124 :: (b ++ 124 :: c)) = [a, b, c] := by
  simp [split3, splitFirst_append a _ ha, splitFirst_append b c hb]

theorem split3_createHmac (H : Bytes → Bytes) (key p : Bytes) (ts : Int)
    (hp : (124 : Nat) ∉ p) :
    split3 (createHmac H key p ts) = [p, intDigits ts, mac H key p ts] := by
  unfold createHmac
  exact split3_two_pipes p (intDigits ts) (mac H key p ts) hp (intDigits_no_pipe ts)

theorem verifyHmac_createHmac (H : Bytes → Bytes) (key key2 p : Bytes)
    (ts now minAge maxAge : Int) (hp : (124 : Nat) ∉ p) (hts : ts ≠ 0) :
    verifyHmac H key2 (createHmac H key p ts) now minAge maxAge =
      if minAge ≠ 0 ∧ ts > now - minAge then .error .newTimestamp
      else if maxAge ≠ 0 ∧ ts < now - maxAge then .error .oldTimestamp
      else if mac H key p ts = mac H key2 p ts then .ok p
      else .error .authentication := by
  unfold verifyHmac
  rw [split3_createHmac H key p ts hp]
  simp only [parseInt_intDigits, hts, if_neg (by exact hts)]
  rfl

theorem mac_ne_of_key_ne (H : Bytes → Bytes) (hs : Nat)
    (hH : ∀ x, (H x).length = hs) (key key2 p : Bytes) (ts : Int)
    (hk : key ≠ key2) : mac H key p ts ≠ mac H key2 p ts := by
  intro heq
  have hlen := congrArg List.length heq
  simp only [mac, macMessage, List.length_append, List.length_cons, hH] at hlen
  have hkl : key.length = key2.length := by omega
  have hmml : (macMessage key p ts).length = (macMessage key2 p ts).length := by
    simp [macMessage, hkl]
  unfold mac at heq
  have hmm : macMessage key p ts = macMessage key2 p ts :=
    (List.append_inj heq hmml).1
  unfold macMessage at hmm
  exact hk (List.append_inj hmm hkl).1

theorem verifyHmac_error_cases (H : Bytes → Bytes) (key v : Bytes)
    (now minAge maxAge : Int) (er : Err)
    (h : verifyHmac H key v now minAge maxAge = .error er) :
    er = .authentication ∨ er = .badTimestamp ∨ er = .newTimestamp ∨
      er = .oldTimestamp := by
  unfold verifyHmac at h
  rcases h3 : split3 v with _ | ⟨a, _ | ⟨b, _ | ⟨c, tl⟩⟩⟩ <;> rw [h3] at h <;>
    (try (injection h with h; subst h; simp))
  cases tl with
  | cons _ _ =>
      simp only [] at h
      injection h with h
      subst h
      simp
  | nil =>
      simp only [] at h
      split_ifs at h <;> (injection h with h; subst h; simp)

theorem decrypt_error_cases (blk : Block) (v : Bytes) (er : Err)
    (h : decrypt blk v = .error er) : er = .decryption := by
  simp only [decrypt] at h
  split_ifs at h <;> (injection h with h; subst h; rfl)

theorem decodePayload_error_cases (e : Encoder) (rv2 : Bytes) (er : Err)
    (h : e.decodePayload rv2 = .error er) :
    er = .corruptInput ∨ er = .decryption ∨ er = .decoding := by
  unfold Encoder.decodePayload at h
  cases hb : e.block with
  | none =>
      simp only [hb] at h
      cases hd : deserialize rv2 <;> simp only [hd] at h
      · injection h with h
        subst h
        simp
      · cases h
  | some blk =>
      simp only [hb] at h
      cases hd : decode rv2 with
      | none =>
          simp only [hd] at h
          injection h with h
          subst h
          simp
      | some rv3 =>
          simp only [hd] at h
          cases hdec : decrypt blk rv3 with
          | error er2 =>
              simp only [hdec] at h
              injection h with h
              subst h
              have := decrypt_error_cases blk rv3 er2 hdec
              simp [this]
          | ok rv4 =>
              simp only [hdec] at h
              cases hds : deserialize rv4 <;> simp only [hds] at h
              · injection h with h
                subst h
                simp
              · cases h

theorem Decode_eq_verify (e : Encoder) (H : Bytes → Bytes) (key value rv : Bytes)
    (hh : e.hash = some H)
    (hml : ¬(e.maxLength ≠ 0 ∧ e.maxLength < value.length))
    (hdec : decode value = some rv) :
    e.Decode key value =
      match verifyHmac H key rv e.timestamp e.minAge e.maxAge with
      | .error er => .error er
      | .ok rv2 => e.decodePayload rv2 := by
  unfold Encoder.Decode
  rw [hh]
  simp only [if_neg hml, hdec]

theorem storeDecode_ok_iff (es : List Encoder) (key v : Bytes) :
    (∃ d, storeDecode es key v = .ok d) ↔
      ∃ e ∈ es, ∃ d, e.Decode key v = .ok d := by
  induction es with
  | nil => simp [storeDecode]
  | cons e rest ih =>
      unfold storeDecode
      cases h : e.Decode key v with
      | ok d =>
          constructor
          · intro _
            exact ⟨e, List.mem_cons_self e rest, d, h⟩
          · intro _
            exact ⟨d, rfl⟩
      | error er =>
          simp only []
          rw [ih]
          constructor
          · rintro ⟨f, hf, d, hd⟩
            exact ⟨f, List.mem_cons_of_mem e hf, d, hd⟩
          · rintro ⟨f, hf, d, hd⟩
            rcases List.mem_cons.mp hf with rfl | hf
            · rw [h] at hd
              cases hd
            · exact ⟨f, hf, d, hd⟩

theorem lookupKey_append_self {α : Type} (l : List (String × α)) (k : String)
    (v : α) (h : lookupKey l k = none) :
    lookupKey (l ++ [(k, v)]) k = some v := by
  induction l with
  | nil => simp [lookupKey]
  | cons e rest ih =>
      obtain ⟨k', v'⟩ := e
      by_cases hk : k' = k
      · simp [lookupKey, hk] at h
      · simp only [lookupKey, if_neg hk] at h
        simp only [List.cons_append, lookupKey, if_neg hk]
        exact ih h

theorem getD_append_length {α : Type} (l : List α) (x d : α) :
    (l ++ [x]).getD l.length d = x := by
  induction l with
  | nil => rfl
  | cons a t ih => simp only [List.cons_append, List.length_cons, List.getD_cons_succ]; exact ih

theorem set_append_length {α : Type} (l : List α) (x y : α) :
    (l ++ [x]).set l.length y = l ++ [y] := by
  induction l with
  | nil => rfl
  | cons a t ih => simp only [List.cons_append, List.length_cons, List.set_cons_succ]; rw [ih]

theorem decodePayload_ne_fresh (e : Encoder) (rv2 : Bytes) :
    e.decodePayload rv2 ≠ .error .newTimestamp
    ∧ e.decodePayload rv2 ≠ .error .oldTimestamp
    ∧ e.decodePayload rv2 ≠ .error .maxLength := by
  refine ⟨fun h => ?_, fun h => ?_, fun h => ?_⟩ <;>
    (rcases decodePayload_error_cases e rv2 _ h with h' | h' | h' <;> cases h')

/-- C1: the round-trip property `Decode (Encode d) = d` FAILS on the
code for a hash-only encoder as soon as the gob serialization of `d`
contains the pipe byte `0x7c`: the payload is spliced un-armored into
the pipe-delimited `"<payload>|<ts>|<mac>"` format, so the split at
decode time goes wrong (here: the timestamp field becomes empty, giving
`ErrBadTimestamp`).  With a pipe-free serialization the round-trip does
hold.  The cipher branch base64-armors the payload precisely "because
pipes would break HMAC verification"; the hash-only branch forgot to. -/
theorem c1_roundtrip_pipe_bug :
    (encA.Encode [] [] keyA dataPipe).bind (fun v => encA.Decode keyA v)
      = .error .badTimestamp
    ∧ (124 : Nat) ∈ serialize dataPipe
    ∧ (encA.Encode [] [] keyA dataA).bind (fun v => encA.Decode keyA v)
      = .ok dataA := by
  exact ⟨rfl, by decide, rfl⟩

/-- C2 (counterexample): flipping a single byte of an honestly encoded
value does NOT always yield the `Authentication` error: flipping byte 3
of this encoding corrupts the embedded timestamp and `Decode` fails
with `BadTimestamp` instead. -/
theorem c2_counterexample :
    encA.Encode [] [] keyA dataEmpty = .ok vEmptyA
    ∧ vFlipped = vEmptyA.set 3 65
    ∧ encA.Decode keyA vFlipped = .error .badTimestamp
    ∧ Err.badTimestamp ≠ Err.authentication :=
  ⟨rfl, rfl, rfl, by decide⟩

/-- C2 (amended): decoding with any key different from the encode-time
key fails with `Authentication` (for a fixed-digest-length hash, on a
value that passes the length and freshness checks and whose payload is
pipe-free).  Flipping a single byte of an encoded value, however, is
NOT guaranteed to fail with `Authentication`, nor even to fail at all:
a flip corrupting the embedded timestamp fails with `BadTimestamp`,
and a flip that changes only the unused trailing bits of the final
base64 quantum (index 53 of `vDataA`, `Q` to `R`) is read back as the
same bytes by the non-strict decoder, so `Decode` still succeeds with
the original data. -/
theorem c2_amended (e : Encoder) (H : Bytes → Bytes) (hs : Nat)
    (key key2 p value : Bytes) (ts : Int)
    (hh : e.hash = some H) (hH : ∀ x, (H x).length = hs)
    (hml : e.maxLength = 0) (hmn : e.minAge = 0)
    (hmx : e.maxAge = 0 ∨ e.timeFunc - e.maxAge ≤ ts)
    (hp : (124 : Nat) ∉ p) (hts : ts ≠ 0)
    (hdec : decode value = some (createHmac H key p ts))
    (hk : key ≠ key2) :
    e.Decode key2 value = .error .authentication
    ∧ encA.Decode keyA vFlipped = .error .badTimestamp
    ∧ (encA.Encode [] [] keyA dataA = .ok vDataA
        ∧ vFlipOk = vDataA.set 53 82 ∧ vFlipOk ≠ vDataA
        ∧ encA.Decode keyA vFlipOk = .ok dataA) := by
  refine ⟨?_, rfl, rfl, rfl, by decide, rfl⟩
  have htf : e.timestamp = e.timeFunc := rfl
  have hD := Decode_eq_verify e H key2 value (createHmac H key p ts) hh
    (by simp [hml]) hdec
  rw [htf, verifyHmac_createHmac H key key2 p ts e.timeFunc e.minAge e.maxAge hp hts] at hD
  have h1 : ¬(e.minAge ≠ 0 ∧ ts > e.timeFunc - e.minAge) := by simp [hmn]
  have h2 : ¬(e.maxAge ≠ 0 ∧ ts < e.timeFunc - e.maxAge) := by
    rcases hmx with h | h
    · simp [h]
    · rintro ⟨_, hc⟩
      omega
  rw [if_neg h1, if_neg h2,
    if_neg (mac_ne_of_key_ne H hs hH key key2 p ts hk)] at hD
  exact hD

theorem c2_amended_w :
    encB.Decode keyB vOldB = .error .authentication
    ∧ encA.Decode keyA vFlipped = .error .badTimestamp
    ∧ (encA.Encode [] [] keyA dataA = .ok vDataA
        ∧ vFlipOk = vDataA.set 53 82 ∧ vFlipOk ≠ vDataA
        ∧ encA.Decode keyA vFlipOk = .ok dataA) :=
  c2_amended encB hashB 1 keyA keyB (serialize dataA) vOldB 11 rfl
    (fun _ => rfl) rfl rfl (Or.inl rfl) (by decide) (by decide) rfl (by decide)

/-- C3 (counterexample): with `MinAge = 120`, `MaxAge = 60`, clock 1000
and an embedded timestamp 910, the `OldTimestamp` condition
`timestamp < now - maxAge` holds, yet `Decode` fails with
`NewTimestamp` — `MinAge` is checked first — so "fails with
OldTimestamp exactly when MaxAge ≠ 0 and timestamp < now − MaxAge" is
false as stated. -/
theorem c3_counterexample :
    encFresh.Decode keyA vTs910 = .error .newTimestamp
    ∧ encFresh.Decode keyA vTs910 ≠ .error .oldTimestamp
    ∧ encFresh.maxAge ≠ 0 ∧ (910 : Int) < encFresh.timeFunc - encFresh.maxAge :=
  ⟨rfl, by decide, by decide, by decide⟩

/-- C3 (amended): on a well-formed authenticated value, `Decode` fails
with `NewTimestamp` exactly when `minAge ≠ 0 ∧ ts > now − minAge`, and
with `OldTimestamp` exactly when `maxAge ≠ 0 ∧ ts < now − maxAge` AND
the `NewTimestamp` condition does not also hold (it is checked
first). -/
theorem c3_amended (e : Encoder) (H : Bytes → Bytes) (key p value : Bytes)
    (ts : Int) (hh : e.hash = some H) (hml : e.maxLength = 0)
    (hp : (124 : Nat) ∉ p) (hts : ts ≠ 0)
    (hdec : decode value = some (createHmac H key p ts)) :
    (e.Decode key value = .error .newTimestamp ↔
       (e.minAge ≠ 0 ∧ ts > e.timeFunc - e.minAge))
    ∧ (e.Decode key value = .error .oldTimestamp ↔
       (e.maxAge ≠ 0 ∧ ts < e.timeFunc - e.maxAge
          ∧ ¬(e.minAge ≠ 0 ∧ ts > e.timeFunc - e.minAge))) := by
  have htf : e.timestamp = e.timeFunc := rfl
  have hD := Decode_eq_verify e H key value (createHmac H key p ts) hh
    (by simp [hml]) hdec
  rw [htf, verifyHmac_createHmac H key key p ts e.timeFunc e.minAge e.maxAge hp hts] at hD
  by_cases hA : e.minAge ≠ 0 ∧ ts > e.timeFunc - e.minAge
  · rw [if_pos hA] at hD
    replace hD : e.Decode key value = .error .newTimestamp := hD
    constructor
    · rw [hD]
      exact ⟨fun _ => hA, fun _ => rfl⟩
    · rw [hD]
      constructor
      · intro hcon
        injection hcon with hcon
        cases hcon
      · rintro ⟨_, _, hno⟩
        exact absurd hA hno
  · rw [if_neg hA] at hD
    by_cases hB : e.maxAge ≠ 0 ∧ ts < e.timeFunc - e.maxAge
    · rw [if_pos hB] at hD
      replace hD : e.Decode key value = .error .oldTimestamp := hD
      constructor
      · rw [hD]
        constructor
        · intro hcon
          injection hcon with hcon
          cases hcon
        · intro hcon
          exact absurd hcon hA
      · rw [hD]
        exact ⟨fun _ => ⟨hB.1, hB.2, hA⟩, fun _ => rfl⟩
    · rw [if_neg hB, if_pos rfl] at hD
      replace hD : e.Decode key value = e.decodePayload p := hD
      constructor
      · rw [hD]
        constructor
        · intro hcon
          exact absurd hcon (decodePayload_ne_fresh e p).1
        · intro hcon
          exact absurd hcon hA
      · rw [hD]
        constructor
        · intro hcon
          exact absurd hcon (decodePayload_ne_fresh e p).2.1
        · rintro ⟨h1, h2, _⟩
          exact absurd ⟨h1, h2⟩ hB

theorem c3_amended_w :
    encMax60.Decode keyA vTs939 = .error .oldTimestamp
    ∧ encMax60.Decode keyA vTs941 ≠ .error .oldTimestamp
    ∧ encMax60.maxAge = 60
    ∧ encMax60.timeFunc - 939 = 61 ∧ encMax60.timeFunc - 941 = 59 := by
  have h939 := c3_amended encMax60 hashA keyA (serialize dataEmpty) vTs939 939
    rfl rfl (by decide) (by decide) rfl
  have h941 := c3_amended encMax60 hashA keyA (serialize dataEmpty) vTs941 941
    rfl rfl (by decide) (by decide) rfl
  refine ⟨h939.2.mpr ⟨by decide, by decide, by decide⟩, fun hc => ?_, rfl, rfl, rfl⟩
  exact absurd (h941.2.mp hc).2.1 (by decide)

/-- C4: with a configured hash and no cipher, `Encode` outputs (before
the final base64 step) exactly `"<payload>|<ts>|<mac>"`, where the mac
component is the value of `mac` — the digest is computed over
`"<key>|<payload>|<ts>"`, and (because Go's `h.Sum(b)` appends the
digest to `b`, here the formatted message again) the mac value is that
message followed by the digest. -/
theorem c4_encode_structure (e : Encoder) (H : Bytes → Bytes)
    (iv salt key : Bytes) (d : SessionData)
    (hh : e.hash = some H) (hb : e.block = none) :
    e.Encode iv salt key d
      = .ok (encode (serialize d ++ 124 ::
          (intDigits e.timeFunc ++ 124 :: mac H key (serialize d) e.timeFunc)))
    ∧ mac H key (serialize d) e.timeFunc
      = macMessage key (serialize d) e.timeFunc
          ++ H (macMessage key (serialize d) e.timeFunc)
    ∧ macMessage key (serialize d) e.timeFunc
      = key ++ 124 :: (serialize d ++ 124 :: intDigits e.timeFunc) := by
  refine ⟨?_, rfl, rfl⟩
  simp only [Encoder.Encode, hh, hb]
  rfl

theorem c4_w :
    encA.Encode [] [] keyA dataA
      = .ok (encode (serialize dataA ++ 124 ::
          (intDigits encA.timeFunc ++ 124 :: mac hashA keyA (serialize dataA) encA.timeFunc)))
    ∧ mac hashA keyA (serialize dataA) encA.timeFunc
      = macMessage keyA (serialize dataA) encA.timeFunc
          ++ hashA (macMessage keyA (serialize dataA) encA.timeFunc)
    ∧ macMessage keyA (serialize dataA) encA.timeFunc
      = keyA ++ 124 :: (serialize dataA ++ 124 :: intDigits encA.timeFunc) :=
  c4_encode_structure encA hashA [] [] keyA dataA rfl rfl

/-- C5: with several registered encoders, the store-level `Encode` uses
the first (newest) one whenever it has a configured hash; the
store-level `Decode` returns the result of the first encoder that
verifies, and it succeeds exactly when SOME encoder in the list
verifies — in particular a value encoded under an older encoder's
secret still decodes when that encoder appears anywhere in the list. -/
theorem c5_key_rotation (e0 : Encoder) (rest : List Encoder)
    (H : Bytes → Bytes) (h0 : e0.hash = some H)
    (iv salt key v : Bytes) (d : SessionData) :
    storeEncode (e0 :: rest) iv salt key d = e0.Encode iv salt key d
    ∧ (∀ d2, e0.Decode key v = .ok d2 → storeDecode (e0 :: rest) key v = .ok d2)
    ∧ ((∃ d2, storeDecode (e0 :: rest) key v = .ok d2) ↔
        ∃ e ∈ e0 :: rest, ∃ d2, e.Decode key v = .ok d2) := by
  refine ⟨?_, ?_, storeDecode_ok_iff (e0 :: rest) key v⟩
  · have henc : ∃ out, e0.Encode iv salt key d = .ok out := by
      cases hb : e0.block with
      | none =>
          exact ⟨encode (createHmac H key (serialize d) e0.timestamp),
            by simp [Encoder.Encode, h0, hb]⟩
      | some blk =>
          exact ⟨encode (createHmac H key
              (encode (encrypt blk iv salt (serialize d))) e0.timestamp),
            by simp [Encoder.Encode, h0, hb]⟩
    obtain ⟨out, hout⟩ := henc
    unfold storeEncode
    rw [hout]
  · intro d2 h
    unfold storeDecode
    rw [h]

theorem c5_w :
    storeEncode [encA, encB] [] [] keyA dataA = encA.Encode [] [] keyA dataA
    ∧ (∃ d2, storeDecode [encA, encB] keyA vOldB = .ok d2) := by
  have h := c5_key_rotation encA [encB] hashA rfl [] [] keyA vOldB dataA
  exact ⟨h.1, h.2.2.mpr ⟨encB, by simp, dataA, rfl⟩⟩

/-- C6: with a configured hash, `Decode` fails with `MaxLength` exactly
when `MaxLength ≠ 0` and the raw input is longer than `MaxLength` (0
meaning unlimited) — no other input ever produces that error, and the
check precedes all transport decoding and cryptographic work — while
`Encode` enforces no length limit at all: it succeeds for every
session value. -/
theorem c6_maxlength (e : Encoder) (H : Bytes → Bytes) (key value : Bytes)
    (hh : e.hash = some H) :
    (e.Decode key value = .error .maxLength ↔
       (e.maxLength ≠ 0 ∧ e.maxLength < value.length))
    ∧ (∀ iv salt d, ∃ out, e.Encode iv salt key d = .ok out) := by
  constructor
  · constructor
    · intro h
      by_contra hc
      unfold Encoder.Decode at h
      simp only [hh] at h
      rw [if_neg hc] at h
      cases hd : decode value with
      | none =>
          simp only [hd] at h
          injection h with h
          cases h
      | some rv =>
          simp only [hd] at h
          cases hv : verifyHmac H key rv e.timestamp e.minAge e.maxAge with
          | error er =>
              simp only [hv] at h
              injection h with h
              have hcases := verifyHmac_error_cases H key rv e.timestamp
                e.minAge e.maxAge er hv
              rw [h] at hcases
              rcases hcases with h' | h' | h' | h' <;> cases h'
          | ok rv2 =>
              simp only [hv] at h
              exact absurd h (decodePayload_ne_fresh e rv2).2.2
    · intro hc
      unfold Encoder.Decode
      simp only [hh]
      rw [if_pos hc]
  · intro iv salt d
    cases hb : e.block with
    | none =>
        exact ⟨encode (createHmac H key (serialize d) e.timestamp),
          by simp [Encoder.Encode, hh, hb]⟩
    | some blk =>
        exact ⟨encode (createHmac H key
            (encode (encrypt blk iv salt (serialize d))) e.timestamp),
          by simp [Encoder.Encode, hh, hb]⟩

theorem c6_w :
    encLen4.Decode keyA (str "12345") = .error .maxLength
    ∧ (∃ out, encLen4.Encode [] [] keyA dataA = .ok out) := by
  have h := c6_maxlength encLen4 hashA keyA (str "12345") rfl
  exact ⟨h.1.mpr (by decide), h.2 [] [] dataA⟩

theorem Session_fresh (st : RState) (skey stk : String) (s : StoreM)
    (hs : lookupKey st.factory.stores stk = some s)
    (hc : lookupKey st.sessions skey = none)
    (hskey : skey ≠ "") (hstk : stk ≠ "") :
    st.Session [skey, stk] = .ok (st.heap.length,
      { st with
        heap := st.heap ++ [s.loadData]
        sessions := st.sessions ++ [(skey,
          { dataRef := st.heap.length, storeId := s.id,
            config := st.factory.defaultConfigValue })]
        loads := st.loads + 1 }) := by
  unfold RState.Session
  simp [sessionKeys, hskey, hstk, Factory.Store, hs, hc]

theorem Session_cached (st : RState) (skey stk : String) (s : StoreM)
    (info : InfoM)
    (hs : lookupKey st.factory.stores stk = some s)
    (hc : lookupKey st.sessions skey = some info)
    (hskey : skey ≠ "") (hstk : stk ≠ "") :
    st.Session [skey, stk] =
      if info.storeId ≠ s.id then .error .storeMismatch
      else .ok (info.dataRef, st) := by
  unfold RState.Session
  simp [sessionKeys, Factory.Store, hs, hc, hskey, hstk]

/-- C7: within one request, once a `SessionInfo` is cached for a
session key, a second `Session` call resolving to a different store
fails with `StoreMismatch`; resolving to the same store returns the
very same map reference with the state (including the count of
`store.Load` calls) untouched — the identical map object, not a
reload. -/
theorem c7_request_cache (st : RState) (skey sk1 sk2 : String)
    (s1 s2 : StoreM)
    (h1 : lookupKey st.factory.stores sk1 = some s1)
    (h2 : lookupKey st.factory.stores sk2 = some s2)
    (hc : lookupKey st.sessions skey = none)
    (hskey : skey ≠ "") (hsk1 : sk1 ≠ "") (hsk2 : sk2 ≠ "") :
    ∃ ref st2,
      st.Session [skey, sk1] = .ok (ref, st2)
      ∧ st2.Session [skey, sk1] = .ok (ref, st2)
      ∧ st2.loads = st.loads + 1
      ∧ heapGet st2 ref = s1.loadData
      ∧ (s2.id ≠ s1.id → st2.Session [skey, sk2] = .error .storeMismatch) := by
  have hfresh := Session_fresh st skey sk1 s1 h1 hc hskey hsk1
  have hap := lookupKey_append_self st.sessions skey
    ⟨st.heap.length, s1.id, st.factory.defaultConfigValue⟩ hc
  refine ⟨st.heap.length,
    { st with
      heap := st.heap ++ [s1.loadData]
      sessions := st.sessions ++ [(skey,
        ⟨st.heap.length, s1.id, st.factory.defaultConfigValue⟩)]
      loads := st.loads + 1 }, hfresh, ?_, rfl, ?_, ?_⟩
  · have hca := Session_cached
      { st with
        heap := st.heap ++ [s1.loadData]
        sessions := st.sessions ++ [(skey,
          ⟨st.heap.length, s1.id, st.factory.defaultConfigValue⟩)]
        loads := st.loads + 1 } skey sk1 s1
      ⟨st.heap.length, s1.id, st.factory.defaultConfigValue⟩ h1 hap hskey hsk1
    simpa using hca
  · exact getD_append_length st.heap s1.loadData []
  · intro hne
    have hca := Session_cached
      { st with
        heap := st.heap ++ [s1.loadData]
        sessions := st.sessions ++ [(skey,
          ⟨st.heap.length, s1.id, st.factory.defaultConfigValue⟩)]
        loads := st.loads + 1 } skey sk2 s2
      ⟨st.heap.length, s1.id, st.factory.defaultConfigValue⟩ h2 hap hskey hsk2
    rw [hca, if_pos (Ne.symm hne)]

theorem c7_w :
    ∃ ref st2,
      stateA.Session ["s", "cookie"] = .ok (ref, st2)
      ∧ st2.Session ["s", "cookie"] = .ok (ref, st2)
      ∧ st2.loads = stateA.loads + 1
      ∧ heapGet st2 ref = storeCookie.loadData
      ∧ (storeFile.id ≠ storeCookie.id →
          st2.Session ["s", "file"] = .error .storeMismatch) :=
  c7_request_cache stateA "s" "cookie" "file" storeCookie storeFile
    rfl rfl rfl (by decide) (by decide) (by decide)

/-- C8: `FileStoreDecode` decodes the cookie with the first encoder
that verifies; it fails with the dedicated "not initialized" error when
the decoded cookie lacks the reserved `"__sessionid__"` key; otherwise
it reads the server-side record `/tmp/sess_gwp<id>`: when present (and
decodable) its contents supersede the cookie contents, and when absent
(or unreadable) it falls back to the cookie-only contents. -/
theorem c8_filestore_load (e : Encoder) (rest : List Encoder)
    (key value : Bytes) (fs : FileSys) (data : SessionData)
    (hdec : e.Decode key value = .ok data) :
    (sdGet data sessionIdKey = none →
       FileStoreDecode (e :: rest) key value fs = .error .noInit)
    ∧ (∀ idb, sdGet data sessionIdKey = some (.vStr idb) →
        (lookupFile fs (sessPathBase ++ idb) = none →
           FileStoreDecode (e :: rest) key value fs = .ok data)
        ∧ (∀ fdata fdecoded,
             lookupFile fs (sessPathBase ++ idb) = some fdata →
             e.Decode key fdata = .ok fdecoded →
             FileStoreDecode (e :: rest) key value fs = .ok fdecoded)) := by
  refine ⟨fun hno => ?_, fun idb hid => ⟨fun hnof => ?_, fun fdata fdecoded hf hfd => ?_⟩⟩
  · unfold FileStoreDecode
    simp only [hdec, hno]
  · unfold FileStoreDecode
    simp only [hdec, hid, hnof]
  · unfold FileStoreDecode
    simp only [hdec, hid, hf, hfd]

theorem c8_w :
    FileStoreDecode [encA] keyA vIdCookie fsA = .ok dataFull
    ∧ FileStoreDecode [encA] keyA vIdCookie [] = .ok dataId := by
  have h1 := c8_filestore_load encA [] keyA vIdCookie fsA dataId rfl
  have h2 := c8_filestore_load encA [] keyA vIdCookie [] dataId rfl
  exact ⟨(h1.2 (str "ab") rfl).2 vFullBlob dataFull rfl rfl,
    (h2.2 (str "ab") rfl).1 rfl⟩

/-- C9: `AddFlash` appends its value to the sequence stored under the
flash key in the (shared) session map; `Flashes` returns that sequence
and removes the key; after `AddFlash v` on a session with no flashes, a
first `Flashes` call returns `[v]` and an immediately following second
call fails with `NoFlashes`. -/
theorem c9_flash_oneshot (st : RState) (fk skey stk : String)
    (s : StoreM) (v : Value)
    (hs : lookupKey st.factory.stores stk = some s)
    (hc : lookupKey st.sessions skey = none)
    (hfk : fk ≠ "") (hskey : skey ≠ "") (hstk : stk ≠ "")
    (hnof : sdGet s.loadData (str fk) = none) :
    ∃ st1 st2,
      st.AddFlash v [fk, skey, stk] = .ok (true, st1)
      ∧ st1.Flashes [fk, skey, stk] = .ok ([v], st2)
      ∧ st2.Flashes [fk, skey, stk] = .error .noFlashes := by
  have hflash : flashKey [fk, skey, stk] = (fk, [skey, stk]) := by
    simp [flashKey, hfk]
  have hfresh := Session_fresh st skey stk s hs hc hskey hstk
  have hap := lookupKey_append_self st.sessions skey
    ⟨st.heap.length, s.id, st.factory.defaultConfigValue⟩ hc
  refine ⟨{ st with
      heap := st.heap ++ [sdSet s.loadData (str fk) (.vList [v])]
      sessions := st.sessions ++ [(skey,
        ⟨st.heap.length, s.id, st.factory.defaultConfigValue⟩)]
      loads := st.loads + 1 },
    { st with
      heap := st.heap ++
        [sdDel (sdSet s.loadData (str fk) (.vList [v])) (str fk)]
      sessions := st.sessions ++ [(skey,
        ⟨st.heap.length, s.id, st.factory.defaultConfigValue⟩)]
      loads := st.loads + 1 }, ?_, ?_, ?_⟩
  · unfold RState.AddFlash
    rw [hflash]
    simp only [hfresh]
    have hget : heapGet { st with
        heap := st.heap ++ [s.loadData]
        sessions := st.sessions ++ [(skey,
          ⟨st.heap.length, s.id, st.factory.defaultConfigValue⟩)]
        loads := st.loads + 1 } st.heap.length = s.loadData :=
      getD_append_length st.heap s.loadData []
    rw [hget, hnof]
    unfold heapSet
    rw [set_append_length]
  · have hca := Session_cached
      { st with
        heap := st.heap ++ [sdSet s.loadData (str fk) (.vList [v])]
        sessions := st.sessions ++ [(skey,
          ⟨st.heap.length, s.id, st.factory.defaultConfigValue⟩)]
        loads := st.loads + 1 } skey stk s
      ⟨st.heap.length, s.id, st.factory.defaultConfigValue⟩ hs hap hskey hstk
    unfold RState.Flashes
    rw [hflash]
    simp only [hca]
    have hget : heapGet { st with
        heap := st.heap ++ [sdSet s.loadData (str fk) (.vList [v])]
        sessions := st.sessions ++ [(skey,
          ⟨st.heap.length, s.id, st.factory.defaultConfigValue⟩)]
        loads := st.loads + 1 } st.heap.length
        = sdSet s.loadData (str fk) (.vList [v]) :=
      getD_append_length st.heap _ []
    simp only [ne_eq, not_true_eq_false, if_false, hget,
      sdGet_sdSet s.loadData (str fk) (.vList [v])]
    unfold heapSet
    rw [set_append_length]
  · have hca := Session_cached
      { st with
        heap := st.heap ++
          [sdDel (sdSet s.loadData (str fk) (.vList [v])) (str fk)]
        sessions := st.sessions ++ [(skey,
          ⟨st.heap.length, s.id, st.factory.defaultConfigValue⟩)]
        loads := st.loads + 1 } skey stk s
      ⟨st.heap.length, s.id, st.factory.defaultConfigValue⟩ hs hap hskey hstk
    unfold RState.Flashes
    rw [hflash]
    simp only [hca]
    have hget : heapGet { st with
        heap := st.heap ++
          [sdDel (sdSet s.loadData (str fk) (.vList [v])) (str fk)]
        sessions := st.sessions ++ [(skey,
          ⟨st.heap.length, s.id, st.factory.defaultConfigValue⟩)]
        loads := st.loads + 1 } st.heap.length
        = sdDel (sdSet s.loadData (str fk) (.vList [v])) (str fk) :=
      getD_append_length st.heap _ []
    simp only [ne_eq, not_true_eq_false, if_false, hget,
      sdGet_sdDel (sdSet s.loadData (str fk) (.vList [v])) (str fk)]

theorem c9_w :
    ∃ st1 st2,
      stateA.AddFlash (.vStr (str "hi")) ["_flash", "s", "cookie"]
        = .ok (true, st1)
      ∧ st1.Flashes ["_flash", "s", "cookie"] = .ok ([.vStr (str "hi")], st2)
      ∧ st2.Flashes ["_flash", "s", "cookie"] = .error .noFlashes :=
  c9_flash_oneshot stateA "_flash" "s" "cookie" storeCookie
    (.vStr (str "hi")) rfl rfl (by decide) (by decide) (by decide) rfl

/-- C10: a freshly loaded session receives a value copy of the
factory's default `SessionConfig` — every field of the cached snapshot
equals the corresponding field of the default at load time — and
overwriting the cached `SessionInfo`'s config afterwards leaves the
factory (and hence its default configuration) unchanged. -/
theorem c10_config_snapshot (st : RState) (skey stk : String)
    (s : StoreM) (cfg : SessionConfig)
    (hs : lookupKey st.factory.stores stk = some s)
    (hc : lookupKey st.sessions skey = none)
    (hskey : skey ≠ "") (hstk : stk ≠ "") :
    ∃ ref st2 info,
      st.Session [skey, stk] = .ok (ref, st2)
      ∧ lookupKey st2.sessions skey = some info
      ∧ info.config = st.factory.defaultConfigValue
      ∧ info.config.path = st.factory.defaultConfig.path
      ∧ info.config.domain = st.factory.defaultConfig.domain
      ∧ info.config.maxAge = st.factory.defaultConfig.maxAge
      ∧ info.config.secure = st.factory.defaultConfig.secure
      ∧ info.config.httpOnly = st.factory.defaultConfig.httpOnly
      ∧ (st2.setSessionConfig skey cfg).factory = st2.factory
      ∧ st2.factory = st.factory := by
  refine ⟨st.heap.length, _,
    ⟨st.heap.length, s.id, st.factory.defaultConfigValue⟩,
    Session_fresh st skey stk s hs hc hskey hstk,
    lookupKey_append_self st.sessions skey _ hc,
    rfl, rfl, rfl, rfl, rfl, rfl, rfl, rfl⟩

theorem c10_w :
    ∃ ref st2 info,
      stateA.Session ["s", "cookie"] = .ok (ref, st2)
      ∧ lookupKey st2.sessions "s" = some info
      ∧ info.config = stateA.factory.defaultConfigValue
      ∧ info.config.path = stateA.factory.defaultConfig.path
      ∧ info.config.domain = stateA.factory.defaultConfig.domain
      ∧ info.config.maxAge = stateA.factory.defaultConfig.maxAge
      ∧ info.config.secure = stateA.factory.defaultConfig.secure
      ∧ info.config.httpOnly = stateA.factory.defaultConfig.httpOnly
      ∧ (st2.setSessionConfig "s"
          { path := "/x", domain := "", maxAge := 0,
            secure := true, httpOnly := true }).factory = st2.factory
      ∧ st2.factory = stateA.factory :=
  c10_config_snapshot stateA "s" "cookie" storeCookie
    { path := "/x", domain := "", maxAge := 0,
      secure := true, httpOnly := true }
    rfl rfl (by decide) (by decide)

end GWP
